import Mathlib

/-!
Shallow embedding of the Hyperliquid whale tracker
(src/whale_tracker.py) and verification of the frozen claims about it.

Python floats are modelled as exact rationals; every numeric value the
claims exercise (position sizes such as 100/150/151, percentages, fill
PnLs) is exactly representable, so no rounding discrepancy with IEEE-754
arithmetic arises at the inputs considered.  Python round(x, n) uses
round-half-to-even on the scaled value; pyRound below implements it.
Network fetches are modelled as Option-valued inputs: none stands for a
failed request ( _post returning None in the source).
-/

namespace WhaleTracker

/-- Round-half-to-even of a rational to the nearest integer, as in
Python round on an exact value. -/
def roundHalfEven (q : ℚ) : ℤ :=
  let f := ⌊q⌋
  let r := q - (f : ℚ)
  if r < 1/2 then f
  else if 1/2 < r then f + 1
  else if f % 2 = 0 then f else f + 1

/-- Model of Python round(q, nd): round-half-to-even at nd decimal digits. -/
def pyRound (nd : ℕ) (q : ℚ) : ℚ :=
  (roundHalfEven (q * 10 ^ nd) : ℚ) / 10 ^ nd

/-- Model of a Python float value as stored in the result dictionaries.
The constructor val holds a finite value (as an exact rational); the
constructor inf is the raw IEEE-754 positive infinity, the value of the
Python expression float("inf").  There is no tagged sentinel: a result
field of this type is a plain float. -/
inductive PyFloat where
  | val (q : ℚ)
  | inf
  deriving DecidableEq, Repr

/-- Python round(x, nd) on a float: finite values round, infinity stays
infinity. -/
def pyRoundPF (nd : ℕ) : PyFloat → PyFloat
  | .val q => .val (pyRound nd q)
  | .inf => .inf

/-- One historical fill, with the two fields the scorer reads:
the instrument name and the realized PnL of the fill (0 when the fill
closed nothing). -/
structure Fill where
  coin : String
  closedPnl : ℚ
  deriving DecidableEq, Repr

/-- Fills for the tracked instrument: the source filters on coin == BTC. -/
def btc_fills (fills : List Fill) : List Fill :=
  fills.filter (fun f => f.coin = "BTC")

/-- Closed trades: BTC fills whose closedPnl is nonzero. -/
def closed_trades_of (fills : List Fill) : List Fill :=
  (btc_fills fills).filter (fun f => decide (f.closedPnl ≠ 0))

/-- Result dictionary of get_whale_winrate.  The three constructors are
the three return statements of the source: noFills when the fills fetch
returned None or an empty list (the dictionary carries only the address
and has_btc_trades = False); noClosed when BTC fills exist in the
response but none has nonzero closedPnl (winrate is the value None);
scored for the full statistics dictionary. -/
inductive WinrateResult where
  | noFills (address : String)
  | noClosed (address : String) (has_btc_trades : Bool) (total_btc_fills : ℕ)
  | scored (address : String) (total_btc_fills : ℕ) (closed_trades : ℕ)
      (wins : ℕ) (losses : ℕ) (winrate : ℚ) (total_pnl : ℚ) (profit_factor : PyFloat)
  deriving DecidableEq, Repr

/-- Model of wr.get with key closed_trades and default 0: the key is
absent in the noFills dictionary and the noClosed dictionary stores 0. -/
def WinrateResult.closedTradesGet : WinrateResult → ℕ
  | .noFills _ => 0
  | .noClosed _ _ _ => 0
  | .scored _ _ ct _ _ _ _ _ => ct

/-- Model of wr.get with key winrate and default None: absent key and a
stored None both read as none; the scored dictionary stores a number. -/
def WinrateResult.winrateGet : WinrateResult → Option ℚ
  | .noFills _ => none
  | .noClosed _ _ _ => none
  | .scored _ _ _ _ _ w _ _ => some w

/-- Model of x.get with key winrate and default 0, the sort key of
get_all_winrates: an absent key reads as the default 0, but a stored
None reads as None (not the default) — represented here as none. -/
def WinrateResult.winrateSortKey : WinrateResult → Option ℚ
  | .noFills _ => some 0
  | .noClosed _ _ _ => none
  | .scored _ _ _ _ _ w _ _ => some w

/-- Model of wr.get with key total_pnl and default 0. -/
def WinrateResult.totalPnlGet : WinrateResult → ℚ
  | .noFills _ => 0
  | .noClosed _ _ _ => 0
  | .scored _ _ _ _ _ _ p _ => p

/-- The has_btc_trades field: False in the no-fills dictionary, the
computed flag in the no-closed-trades dictionary, True in the scored
dictionary. -/
def WinrateResult.hasBtcTrades : WinrateResult → Bool
  | .noFills _ => false
  | .noClosed _ b _ => b
  | .scored _ _ _ _ _ _ _ _ => true

/-- The profit_factor field, present only in the scored dictionary. -/
def WinrateResult.profitFactorGet : WinrateResult → Option PyFloat
  | .noFills _ => none
  | .noClosed _ _ _ => none
  | .scored _ _ _ _ _ _ _ pf => some pf

/-- Embedding of get_whale_winrate.  The fills argument is the response
of the userFillsByTime request: none models a failed fetch (_post
returning None); together with an empty list it falls into the
`if not fills` early return.  Otherwise the source filters BTC fills,
partitions out closed trades, and either returns the no-closed-trades
dictionary or the full statistics.  When gross_loss is zero the profit
factor is the Python float infinity. -/
def get_whale_winrate (address : String) (fills : Option (List Fill)) : WinrateResult :=
  match fills with
  | none => .noFills address
  | some fs =>
    if fs = [] then .noFills address
    else
      let bf := btc_fills fs
      let ct := closed_trades_of fs
      if ct = [] then
        .noClosed address (decide (0 < bf.length)) bf.length
      else
        let wins := (ct.filter (fun f => decide (0 < f.closedPnl))).length
        let losses := (ct.filter (fun f => decide (f.closedPnl < 0))).length
        let total_pnl := (ct.map Fill.closedPnl).sum
        let gross_profit := ((ct.filter (fun f => decide (0 < f.closedPnl))).map Fill.closedPnl).sum
        let gross_loss := |((ct.filter (fun f => decide (f.closedPnl < 0))).map Fill.closedPnl).sum|
        let profit_factor : PyFloat :=
          if 0 < gross_loss then .val (gross_profit / gross_loss) else .inf
        let winrate : ℚ :=
          if 0 < wins + losses then pyRound 1 ((wins : ℚ) / ((wins : ℚ) + (losses : ℚ)) * 100)
          else 0
        .scored address bf.length ct.length wins losses winrate
          (pyRound 2 total_pnl) (pyRoundPF 2 profit_factor)

/-- One entry of the assetPositions array of a clearinghouseState
response, with the fields the source reads. -/
structure RawPosition where
  coin : String
  szi : ℚ
  entryPx : ℚ
  leverageValue : ℚ
  unrealizedPnl : ℚ
  deriving DecidableEq, Repr

/-- A clearinghouseState response that does contain an assetPositions
key.  A failed request and a response missing that key are both
modelled as the surrounding Option being none. -/
structure ClearinghouseState where
  accountValue : ℚ
  assetPositions : List RawPosition
  deriving DecidableEq, Repr

/-- A stored position dictionary, as built by get_current_position and
persisted between cycles.  size_btc keeps its sign; direction is the
string LONG or SHORT. -/
structure Position where
  address : String
  size_btc : ℚ
  direction : String
  entry_price : ℚ
  leverage : ℚ
  account_value : ℚ
  unrealized_pnl : ℚ
  deriving DecidableEq, Repr

/-- The loop of get_current_position: return the first BTC entry whose
szi is nonzero; a BTC entry with zero szi does not return, the loop
continues. -/
def findBtcNonzero : List RawPosition → Option RawPosition
  | [] => none
  | p :: rest =>
    if p.coin = "BTC" then
      if p.szi ≠ 0 then some p else findBtcNonzero rest
    else findBtcNonzero rest

/-- Embedding of get_current_position.  The data argument is the
clearinghouseState response; none covers both a failed request and a
response without assetPositions.  A position is returned only when a
BTC entry with nonzero size exists, so a returned snapshot never has
size 0. -/
def get_current_position (address : String) (data : Option ClearinghouseState) :
    Option Position :=
  match data with
  | none => none
  | some d =>
    match findBtcNonzero d.assetPositions with
    | none => none
    | some p =>
      some { address := address
             size_btc := p.szi
             direction := if 0 < p.szi then "LONG" else "SHORT"
             entry_price := p.entryPx
             leverage := p.leverageValue
             account_value := d.accountValue
             unrealized_pnl := p.unrealizedPnl }

/-- The three alert dictionaries check_position_changes can append, with
the winrate annotation fields each of them carries. -/
inductive ChangeEvent where
  | newPosition (address : String) (direction : String)
      (size_btc : ℚ) (entry_price : ℚ) (leverage : ℚ) (account_value : ℚ)
      (winrate : Option ℚ) (pnl_30d : ℚ) (trades_30d : ℕ)
  | directionChange (address : String) (old_direction : String) (new_direction : String)
      (size_btc : ℚ) (entry_price : ℚ) (leverage : ℚ)
      (winrate : Option ℚ) (pnl_30d : ℚ) (trades_30d : ℕ)
  | sizeIncrease (address : String) (direction : String)
      (old_size : ℚ) (new_size : ℚ) (increase_pct : ℚ) (leverage : ℚ)
      (winrate : Option ℚ) (pnl_30d : ℚ) (trades_30d : ℕ)
  deriving DecidableEq, Repr

/-- Address field of an event. -/
def ChangeEvent.eventAddress : ChangeEvent → String
  | .newPosition a _ _ _ _ _ _ _ _ => a
  | .directionChange a _ _ _ _ _ _ _ _ => a
  | .sizeIncrease a _ _ _ _ _ _ _ _ => a

/-- Whether an event is a SIZE_INCREASE alert. -/
def ChangeEvent.isSizeIncrease : ChangeEvent → Bool
  | .sizeIncrease _ _ _ _ _ _ _ _ _ => true
  | _ => false

/-- Per-account body of the loop of check_position_changes: the
if / elif / elif chain classifying one account into at most one event.
The wr argument is the winrate dictionary the source fetches lazily
inside each branch; all three branches issue the identical request, so
a single argument models it. -/
def classify (address : String) (current previous : Option Position)
    (wr : WinrateResult) : Option ChangeEvent :=
  match current, previous with
  | none, _ => none
  | some c, none =>
    some (.newPosition address c.direction |c.size_btc| c.entry_price c.leverage
      c.account_value wr.winrateGet wr.totalPnlGet wr.closedTradesGet)
  | some c, some p =>
    if c.direction ≠ p.direction then
      some (.directionChange address p.direction c.direction |c.size_btc|
        c.entry_price c.leverage wr.winrateGet wr.totalPnlGet wr.closedTradesGet)
    else
      let prev_size := |p.size_btc|
      let curr_size := |c.size_btc|
      if 0 < prev_size then
        let size_change := (curr_size - prev_size) / prev_size * 100
        if 50 < size_change then
          some (.sizeIncrease address c.direction prev_size curr_size
            (pyRound 1 size_change) c.leverage
            wr.winrateGet wr.totalPnlGet wr.closedTradesGet)
        else none
      else none

/-- Embedding of check_position_changes.  fetch gives each address its
clearinghouseState response (none = failed request), wrOracle the
winrate dictionary the lazy per-event fetch would return, prevMap the
previous-positions store loaded at startup.  The first component is the
list of events in roster order; the second is the current_positions
association list that fully replaces the store at the end of the cycle
(only successfully fetched, nonzero positions are stored). -/
def check_position_changes (fetch : String → Option ClearinghouseState)
    (wrOracle : String → WinrateResult) (prevMap : String → Option Position) :
    List String → List ChangeEvent × List (String × Position)
  | [] => ([], [])
  | a :: rest =>
    let current := get_current_position a (fetch a)
    let tail := check_position_changes fetch wrOracle prevMap rest
    ((match classify a current (prevMap a) (wrOracle a) with
      | some e => e :: tail.1
      | none => tail.1),
     (match current with
      | some c => (a, c) :: tail.2
      | none => tail.2))

/-- Comparator of the descending winrate sort in get_all_winrates.  The
Python key is x.get with key winrate and default 0; comparing the value
None against a number raises TypeError in Python, so this Boolean
comparator is only a faithful model on dictionaries whose sort key is a
number — which is every dictionary passing the min_trades filter once
min_trades is at least 1 (proved below); the getD 0 on a none key is
never reached there. -/
def keyLeDesc (a b : WinrateResult) : Bool :=
  decide ((b.winrateSortKey.getD 0) ≤ (a.winrateSortKey.getD 0))

/-- Embedding of get_all_winrates: score every roster address, keep the
dictionaries whose closed_trades reading is at least min_trades, then
stable-sort descending by winrate (Python list.sort is stable and
reverse=True preserves stability, as does mergeSort with this
comparator). -/
def get_all_winrates (score : String → WinrateResult) (addresses : List String)
    (min_trades : ℕ) : List WinrateResult :=
  ((addresses.map score).filter
    (fun wr => decide (min_trades ≤ wr.closedTradesGet))).mergeSort keyLeDesc

/-- Result dictionary of get_current_sentiment. -/
structure SentimentSummary where
  whale_count : ℕ
  total_long_btc : ℚ
  total_short_btc : ℚ
  long_ratio_pct : ℚ
  sentiment : String
  deriving DecidableEq, Repr

/-- Loop body of get_current_sentiment: accumulate (total_long,
total_short, whale_count) over one fetched position (none = no BTC
position or failed fetch). -/
def sentimentStep (acc : ℚ × ℚ × ℕ) (pos : Option Position) : ℚ × ℚ × ℕ :=
  match pos with
  | none => acc
  | some p =>
    if 0 < p.size_btc then (acc.1 + |p.size_btc|, acc.2.1, acc.2.2 + 1)
    else (acc.1, acc.2.1 + |p.size_btc|, acc.2.2 + 1)

/-- Embedding of get_current_sentiment.  positions is the list of
get_current_position results over the roster, in roster order. -/
def get_current_sentiment (positions : List (Option Position)) : SentimentSummary :=
  let acc := positions.foldl sentimentStep (0, 0, 0)
  let total_long := acc.1
  let total_short := acc.2.1
  let total_size := total_long + total_short
  let lr : ℚ := if 0 < total_size then total_long / total_size * 100 else 50
  let label :=
    if 65 < lr then "STRONG_LONG"
    else if 55 < lr then "SLIGHTLY_LONG"
    else if lr < 35 then "STRONG_SHORT"
    else if lr < 45 then "SLIGHTLY_SHORT"
    else "NEUTRAL"
  { whale_count := acc.2.2
    total_long_btc := pyRound 2 total_long
    total_short_btc := pyRound 2 total_short
    long_ratio_pct := pyRound 1 lr
    sentiment := label }

/-- Gross profit of the closed BTC trades of a fill list, as summed in
get_whale_winrate. -/
def grossProfitOf (fs : List Fill) : ℚ :=
  (((closed_trades_of fs).filter (fun f => decide (0 < f.closedPnl))).map Fill.closedPnl).sum

/-- Gross loss of the closed BTC trades of a fill list, as summed in
get_whale_winrate. -/
def grossLossOf (fs : List Fill) : ℚ :=
  |(((closed_trades_of fs).filter (fun f => decide (f.closedPnl < 0))).map Fill.closedPnl).sum|

/-- Sum of the absolute sizes of the successfully fetched positions with
positive signed size (the long bucket of the sentiment summary). -/
def longSizesSum (ps : List (Option Position)) : ℚ :=
  (((ps.filterMap id).filter (fun p => decide (0 < p.size_btc))).map
    (fun p => |p.size_btc|)).sum

/-- Sum of the absolute sizes of the successfully fetched positions with
nonpositive signed size (the short bucket of the sentiment summary). -/
def shortSizesSum (ps : List (Option Position)) : ℚ :=
  (((ps.filterMap id).filter (fun p => decide (¬ 0 < p.size_btc))).map
    (fun p => |p.size_btc|)).sum

/-- The long ratio before rounding: totalLong / (totalLong + totalShort)
percentage, defined as 50 when both buckets are zero. -/
def sentRatioOf (ps : List (Option Position)) : ℚ :=
  if 0 < longSizesSum ps + shortSizesSum ps then
    longSizesSum ps / (longSizesSum ps + shortSizesSum ps) * 100
  else 50

/-- Sample stored position: 100 BTC long. -/
def sample100 : Position :=
  { address := "w", size_btc := 100, direction := "LONG", entry_price := 50000,
    leverage := 10, account_value := 1000000, unrealized_pnl := 0 }

/-- Sample current position: 150 BTC long (exactly a 50 percent growth
over sample100). -/
def sample150 : Position :=
  { sample100 with size_btc := 150 }

/-- Sample current position: 151 BTC long (a 51 percent growth over
sample100). -/
def sample151 : Position :=
  { sample100 with size_btc := 151 }

/-- Sample current position: 300 BTC short; against sample100 this is a
direction flip whose magnitude also grew by more than 50 percent. -/
def sampleShort300 : Position :=
  { sample100 with size_btc := -300, direction := "SHORT" }

/-- Sample winrate dictionary with no fills. -/
def sampleWr : WinrateResult := .noFills "w"

/-- Sample scored winrate dictionary: 5 closed trades, winrate 60. -/
def sampleScored : WinrateResult := .scored "w" 5 5 3 2 60 100 (.val 2)

/-- Sample clearinghouseState response holding one BTC position of
signed size 2. -/
def sampleState : ClearinghouseState :=
  { accountValue := 1000000
    assetPositions := [{ coin := "BTC", szi := 2, entryPx := 50000,
                         leverageValue := 10, unrealizedPnl := 0 }] }

/-- Every event classify returns carries the classified account's
address. -/
theorem classify_eventAddress {a : String} {cur prev : Option Position}
    {wr : WinrateResult} {e : ChangeEvent}
    (h : classify a cur prev wr = some e) : e.eventAddress = a := by
  cases cur with
  | none => simp [classify] at h
  | some c =>
    cases prev with
    | none =>
      simp only [classify] at h
      injection h with h
      subst h
      rfl
    | some p =>
      simp only [classify] at h
      split at h
      · injection h with h
        subst h
        rfl
      · split at h
        · split at h
          · injection h with h
            subst h
            rfl
          · exact absurd h (by simp)
        · exact absurd h (by simp)

/-- An address outside the processed roster suffix never has an event in
the output of check_position_changes. -/
theorem events_filter_of_not_mem (fetch : String → Option ClearinghouseState)
    (wrO : String → WinrateResult) (prevMap : String → Option Position)
    (a : String) :
    ∀ addrs : List String, a ∉ addrs →
      ((check_position_changes fetch wrO prevMap addrs).1.filter
        (fun e => decide (e.eventAddress = a))) = [] := by
  intro addrs
  induction addrs with
  | nil => intro _; rfl
  | cons b rest ih =>
    intro hmem
    have hba : ¬ b = a := fun hh => hmem (by simp [hh])
    have h2 : a ∉ rest := fun hh => hmem (by simp [hh])
    cases hcl : classify b (get_current_position b (fetch b)) (prevMap b) (wrO b) with
    | none =>
      simpa only [check_position_changes, hcl] using ih h2
    | some e =>
      have he := classify_eventAddress hcl
      have hfa : (decide (e.eventAddress = a)) = false := by
        simp [he]
        exact hba
      simp only [check_position_changes, hcl, List.filter_cons, hfa]
      simpa using ih h2

/-- With a duplicate-free roster, at most one event per account is
produced in one detection cycle. -/
theorem events_filter_length_le_one (fetch : String → Option ClearinghouseState)
    (wrO : String → WinrateResult) (prevMap : String → Option Position)
    (a : String) :
    ∀ addrs : List String, addrs.Nodup →
      ((check_position_changes fetch wrO prevMap addrs).1.filter
        (fun e => decide (e.eventAddress = a))).length ≤ 1 := by
  intro addrs
  induction addrs with
  | nil => intro _; simp [check_position_changes]
  | cons b rest ih =>
    intro hnd
    obtain ⟨hb, hrest⟩ := List.nodup_cons.mp hnd
    cases hcl : classify b (get_current_position b (fetch b)) (prevMap b) (wrO b) with
    | none =>
      simpa only [check_position_changes, hcl] using ih hrest
    | some e =>
      have he := classify_eventAddress hcl
      by_cases hba : b = a
      · subst hba
        have hnil := events_filter_of_not_mem fetch wrO prevMap b rest hb
        simp [check_position_changes, hcl, List.filter_cons, he, hnil]
      · have hfa : (decide (e.eventAddress = a)) = false := by
          simp [he]
          exact hba
        simp only [check_position_changes, hcl, List.filter_cons, hfa]
        exact ih hrest

/-- An account whose fetched current position is absent gets no event in
the cycle, whatever its stored previous position is. -/
theorem events_filter_of_current_none (fetch : String → Option ClearinghouseState)
    (wrO : String → WinrateResult) (prevMap : String → Option Position)
    (a : String) (hnone : get_current_position a (fetch a) = none) :
    ∀ addrs : List String,
      ((check_position_changes fetch wrO prevMap addrs).1.filter
        (fun e => decide (e.eventAddress = a))) = [] := by
  intro addrs
  induction addrs with
  | nil => rfl
  | cons b rest ih =>
    by_cases hba : b = a
    · subst hba
      simp only [check_position_changes, hnone]
      simpa only [classify] using ih
    · cases hcl : classify b (get_current_position b (fetch b)) (prevMap b) (wrO b) with
      | none =>
        simpa only [check_position_changes, hcl] using ih
      | some e =>
        have he := classify_eventAddress hcl
        have hfa : (decide (e.eventAddress = a)) = false := by
          simp [he]
          exact hba
        simp only [check_position_changes, hcl, List.filter_cons, hfa]
        simpa using ih

/-- The position-scanning loop only returns entries with nonzero signed
size. -/
theorem findBtcNonzero_szi :
    ∀ {l : List RawPosition} {p : RawPosition},
      findBtcNonzero l = some p → p.szi ≠ 0 := by
  intro l
  induction l with
  | nil => intro p h; simp [findBtcNonzero] at h
  | cons q rest ih =>
    intro p h
    simp only [findBtcNonzero] at h
    split at h
    · split at h
      · injection h with h
        subst h
        assumption
      · exact ih h
    · exact ih h

/-- C1: the per-account classification of check_position_changes is a
first-match-wins priority chain producing at most one event per account
per cycle (for a duplicate-free roster); whenever both snapshots exist
and their directions differ, classification yields exactly the
DIRECTION_CHANGE event — never a SIZE_INCREASE — even if the magnitude
also grew by more than 50 percent. -/
theorem C1_priority_chain :
    (∀ (fetch : String → Option ClearinghouseState) (wrO : String → WinrateResult)
        (prevMap : String → Option Position) (addrs : List String) (a : String),
        addrs.Nodup →
        ((check_position_changes fetch wrO prevMap addrs).1.filter
          (fun e => decide (e.eventAddress = a))).length ≤ 1)
    ∧ (∀ (a : String) (c p : Position) (wr : WinrateResult),
        c.direction ≠ p.direction →
        classify a (some c) (some p) wr =
          some (.directionChange a p.direction c.direction |c.size_btc|
            c.entry_price c.leverage wr.winrateGet wr.totalPnlGet wr.closedTradesGet)
        ∧ ∀ e : ChangeEvent, classify a (some c) (some p) wr = some e →
            e.isSizeIncrease = false) := by
  constructor
  · intro fetch wrO prevMap addrs a hnd
    exact events_filter_length_le_one fetch wrO prevMap a addrs hnd
  · intro a c p wr hdir
    have heq : classify a (some c) (some p) wr =
        some (.directionChange a p.direction c.direction |c.size_btc|
          c.entry_price c.leverage wr.winrateGet wr.totalPnlGet wr.closedTradesGet) := by
      simp only [classify, if_pos hdir]
    refine ⟨heq, ?_⟩
    intro e he
    rw [heq] at he
    injection he with he
    subst he
    rfl

/-- C1 witness: a long-to-short flip whose magnitude grows from 100 to
300 BTC (far above 50 percent) is classified as a DIRECTION_CHANGE and
not as a SIZE_INCREASE, and a concrete one-account cycle produces at
most one event. -/
theorem C1_priority_chain_witness :
    ((check_position_changes (fun _ => some sampleState) (fun _ => sampleWr)
        (fun _ => some sample100) ["w"]).1.filter
      (fun e => decide (e.eventAddress = "w"))).length ≤ 1
    ∧ classify "w" (some sampleShort300) (some sample100) sampleWr =
        some (.directionChange "w" "LONG" "SHORT" 300 50000 10 none 0 0)
    ∧ ∀ e : ChangeEvent,
        classify "w" (some sampleShort300) (some sample100) sampleWr = some e →
        e.isSizeIncrease = false := by
  have h1 := C1_priority_chain.1 (fun _ => some sampleState) (fun _ => sampleWr)
    (fun _ => some sample100) ["w"] "w" (by simp)
  have h2 := C1_priority_chain.2 "w" sampleShort300 sample100 sampleWr
    (by simp [sampleShort300, sample100])
  refine ⟨h1, ?_, h2.2⟩
  have := h2.1
  simpa [sampleShort300, sample100, sampleWr, WinrateResult.winrateGet,
    WinrateResult.totalPnlGet, WinrateResult.closedTradesGet, abs_of_nonpos] using this

/-- C2: for an account with no previous snapshot, a successfully fetched
current position (which always has nonzero signed size) is classified as
exactly one NEW_POSITION event whose direction is LONG when the signed
size is positive and SHORT otherwise. -/
theorem C2_new_position :
    ∀ (a : String) (data : Option ClearinghouseState) (c : Position)
      (wr : WinrateResult),
      get_current_position a data = some c →
      c.size_btc ≠ 0
      ∧ classify a (some c) none wr =
          some (.newPosition a (if 0 < c.size_btc then "LONG" else "SHORT")
            |c.size_btc| c.entry_price c.leverage c.account_value
            wr.winrateGet wr.totalPnlGet wr.closedTradesGet) := by
  intro a data c wr h
  cases data with
  | none => simp [get_current_position] at h
  | some d =>
    simp only [get_current_position] at h
    cases hfind : findBtcNonzero d.assetPositions with
    | none => rw [hfind] at h; exact absurd h (by simp)
    | some p =>
      rw [hfind] at h
      have hszi : p.szi ≠ 0 := findBtcNonzero_szi hfind
      injection h with h
      subst h
      exact ⟨hszi, rfl⟩

/-- C2 witness: a clearinghouse response with a single BTC position of
signed size 2 yields a NEW_POSITION long event. -/
theorem C2_new_position_witness :
    (2 : ℚ) ≠ 0
    ∧ classify "w"
        (some { address := "w", size_btc := 2, direction := "LONG",
                entry_price := 50000, leverage := 10, account_value := 1000000,
                unrealized_pnl := 0 }) none sampleWr =
        some (.newPosition "w" (if (0:ℚ) < 2 then "LONG" else "SHORT") |(2:ℚ)|
          50000 10 1000000 sampleWr.winrateGet sampleWr.totalPnlGet
          sampleWr.closedTradesGet) := by
  have h := C2_new_position "w" (some sampleState)
    { address := "w", size_btc := 2, direction := "LONG", entry_price := 50000,
      leverage := 10, account_value := 1000000, unrealized_pnl := 0 }
    sampleWr (by norm_num [get_current_position, findBtcNonzero, sampleState])
  exact h

/-- C3: with both snapshots present and equal directions, the
SIZE_INCREASE rule fires exactly when the relative growth of the
absolute size is strictly greater than 50 percent, reporting the growth
rounded to one decimal; at the 150-versus-100 boundary (exactly 50
percent) no event is produced, while 151 versus 100 produces exactly one
SIZE_INCREASE with increase_pct 51.0. -/
theorem C3_size_increase_boundary :
    (∀ (a : String) (c p : Position) (wr : WinrateResult),
        c.direction = p.direction → p.size_btc ≠ 0 →
        classify a (some c) (some p) wr =
          if 50 < (|c.size_btc| - |p.size_btc|) / |p.size_btc| * 100 then
            some (.sizeIncrease a c.direction |p.size_btc| |c.size_btc|
              (pyRound 1 ((|c.size_btc| - |p.size_btc|) / |p.size_btc| * 100))
              c.leverage wr.winrateGet wr.totalPnlGet wr.closedTradesGet)
          else none)
    ∧ classify "w" (some sample150) (some sample100) sampleWr = none
    ∧ classify "w" (some sample151) (some sample100) sampleWr =
        some (.sizeIncrease "w" "LONG" 100 151 51 10 none 0 0) := by
  refine ⟨?_, ?_, ?_⟩
  · intro a c p wr hdir hp
    have habs : 0 < |p.size_btc| := abs_pos.mpr hp
    simp only [classify, hdir, ne_eq, not_true_eq_false, if_false, if_pos habs,
      ite_not]
  · norm_num [classify, sample150, sample100]
  · norm_num [classify, sample151, sample100, sampleWr, pyRound, roundHalfEven,
      WinrateResult.winrateGet, WinrateResult.totalPnlGet,
      WinrateResult.closedTradesGet]

/-- C3 witness: the general rule applied at the concrete 151-versus-100
pair, with both hypotheses discharged. -/
theorem C3_size_increase_boundary_witness :
    classify "w" (some sample151) (some sample100) sampleWr =
      if 50 < (|sample151.size_btc| - |sample100.size_btc|) / |sample100.size_btc| * 100 then
        some (.sizeIncrease "w" sample151.direction |sample100.size_btc|
          |sample151.size_btc|
          (pyRound 1 ((|sample151.size_btc| - |sample100.size_btc|) / |sample100.size_btc| * 100))
          sample151.leverage sampleWr.winrateGet sampleWr.totalPnlGet
          sampleWr.closedTradesGet)
      else none :=
  C3_size_increase_boundary.1 "w" sample151 sample100 sampleWr
    (by norm_num [sample151, sample100])
    (by norm_num [sample100])

/-- C4: an account whose previous snapshot exists but whose current
snapshot is absent produces no event: the per-account chain returns
nothing when the current position is absent, and consequently the cycle
output contains no event for such an account. -/
theorem C4_closed_position_no_event :
    (∀ (a : String) (p : Position) (wr : WinrateResult),
        classify a none (some p) wr = none)
    ∧ (∀ (fetch : String → Option ClearinghouseState)
        (wrO : String → WinrateResult) (prevMap : String → Option Position)
        (addrs : List String) (a : String),
        get_current_position a (fetch a) = none →
        ((check_position_changes fetch wrO prevMap addrs).1.filter
          (fun e => decide (e.eventAddress = a))) = []) := by
  refine ⟨fun a p wr => rfl, ?_⟩
  intro fetch wrO prevMap addrs a hnone
  exact events_filter_of_current_none fetch wrO prevMap a hnone addrs

/-- C4 witness: a concrete cycle in which the stored account w has a
previous long position but its current fetch returns nothing yields an
empty event list for w. -/
theorem C4_closed_position_no_event_witness :
    ((check_position_changes (fun _ => none) (fun _ => sampleWr)
        (fun _ => some sample100) ["w"]).1.filter
      (fun e => decide (e.eventAddress = "w"))) = [] :=
  C4_closed_position_no_event.2 (fun _ => none) (fun _ => sampleWr)
    (fun _ => some sample100) ["w"] "w" rfl

/-- C5: when no BTC fill with nonzero closedPnl exists in a delivered
fill list, the scorer returns a non-error dictionary whose closed-trades
reading is 0 and whose winrate reading is None (never the number 0),
with the activity flag true exactly when some BTC fill — closed or not —
exists. -/
theorem C5_empty_closed_trades :
    ∀ (address : String) (fs : List Fill),
      closed_trades_of fs = [] →
      (get_whale_winrate address (some fs)).closedTradesGet = 0
      ∧ (get_whale_winrate address (some fs)).winrateGet = none
      ∧ ((get_whale_winrate address (some fs)).hasBtcTrades = true ↔
          btc_fills fs ≠ []) := by
  intro address fs hct
  by_cases hfs : fs = []
  · subst hfs
    refine ⟨rfl, rfl, ?_⟩
    simp [get_whale_winrate, btc_fills, WinrateResult.hasBtcTrades]
  · have hres : get_whale_winrate address (some fs) =
        .noClosed address (decide (0 < (btc_fills fs).length))
          (btc_fills fs).length := by
      simp [get_whale_winrate, hfs, hct]
    rw [hres]
    refine ⟨rfl, rfl, ?_⟩
    simp [WinrateResult.hasBtcTrades, List.length_pos]

/-- C5 witness: a fill list holding a single BTC fill with zero
closedPnl has no closed trades, and the scorer reports closed trades 0,
winrate None, and activity present. -/
theorem C5_empty_closed_trades_witness :
    (get_whale_winrate "w" (some [{ coin := "BTC", closedPnl := 0 }])).closedTradesGet = 0
    ∧ (get_whale_winrate "w" (some [{ coin := "BTC", closedPnl := 0 }])).winrateGet = none
    ∧ ((get_whale_winrate "w" (some [{ coin := "BTC", closedPnl := 0 }])).hasBtcTrades = true ↔
        btc_fills [{ coin := "BTC", closedPnl := 0 }] ≠ []) :=
  C5_empty_closed_trades "w" [{ coin := "BTC", closedPnl := 0 }]
    (by norm_num [closed_trades_of, btc_fills])

/-- C6: when the clearinghouse fetch for an account fails, that account
has no current snapshot this cycle; the whole cycle computes exactly
what it would compute on the roster with that account removed (the run
continues for the remaining accounts), and the fully replaced persisted
state contains no entry for the failed account. -/
theorem C6_fetch_failure_degrades :
    ∀ (fetch : String → Option ClearinghouseState) (wrO : String → WinrateResult)
      (prevMap : String → Option Position) (addrs : List String) (a : String),
      fetch a = none →
      get_current_position a (fetch a) = none
      ∧ check_position_changes fetch wrO prevMap addrs
          = check_position_changes fetch wrO prevMap
              (addrs.filter (fun b => decide (¬ b = a)))
      ∧ ∀ c : Position, (a, c) ∉ (check_position_changes fetch wrO prevMap addrs).2 := by
  intro fetch wrO prevMap addrs a hf
  have hcur : get_current_position a (fetch a) = none := by rw [hf]; rfl
  refine ⟨hcur, ?_, ?_⟩
  · induction addrs with
    | nil => rfl
    | cons b rest ih =>
      by_cases hba : b = a
      · subst hba
        have hfilter : (b :: rest).filter (fun x => decide (¬ x = b))
            = rest.filter (fun x => decide (¬ x = b)) := by
          simp [List.filter_cons]
        rw [hfilter, ← ih]
        simp only [check_position_changes, hcur]
        simp only [classify]
      · have hfilter : (b :: rest).filter (fun x => decide (¬ x = a))
            = b :: rest.filter (fun x => decide (¬ x = a)) := by
          simp [List.filter_cons, hba]
        rw [hfilter]
        simp only [check_position_changes]
        rw [ih]
  · induction addrs with
    | nil => intro c h; simp [check_position_changes] at h
    | cons b rest ih =>
      intro c h
      by_cases hba : b = a
      · subst hba
        simp only [check_position_changes, hcur] at h
        exact ih c h
      · simp only [check_position_changes] at h
        rcases hcc : get_current_position b (fetch b) with _ | cb
        · rw [hcc] at h
          exact ih c h
        · rw [hcc] at h
          rcases List.mem_cons.mp h with h1 | h1
          · exact hba (congrArg Prod.fst h1).symm
          · exact ih c h1

/-- C6 witness: with a two-account roster where the fetch for w fails
but the fetch for v succeeds, the cycle equals the cycle over v alone
and w is absent from the persisted state. -/
theorem C6_fetch_failure_degrades_witness :
    get_current_position "w" ((fun b => if b = "v" then some sampleState else none) "w") = none
    ∧ check_position_changes (fun b => if b = "v" then some sampleState else none)
        (fun _ => sampleWr) (fun _ => none) ["w", "v"]
        = check_position_changes (fun b => if b = "v" then some sampleState else none)
            (fun _ => sampleWr) (fun _ => none)
            (["w", "v"].filter (fun b => decide (¬ b = "w")))
    ∧ ∀ c : Position,
        ("w", c) ∉ (check_position_changes (fun b => if b = "v" then some sampleState else none)
          (fun _ => sampleWr) (fun _ => none) ["w", "v"]).2 :=
  C6_fetch_failure_degrades (fun b => if b = "v" then some sampleState else none)
    (fun _ => sampleWr) (fun _ => none) ["w", "v"] "w" (by simp)

/-- A dictionary with a positive closed-trades reading is a scored
dictionary: its winrate reading is a number and its sort key coincides
with it. -/
theorem closedTrades_pos_scored :
    ∀ {r : WinrateResult}, 0 < r.closedTradesGet →
      r.winrateGet.isSome = true ∧ r.winrateSortKey = r.winrateGet := by
  intro r h
  cases r with
  | noFills _ => simp [WinrateResult.closedTradesGet] at h
  | noClosed _ _ _ => simp [WinrateResult.closedTradesGet] at h
  | scored _ _ _ _ _ _ _ _ =>
    exact ⟨rfl, rfl⟩

/-- The descending winrate comparator is transitive. -/
theorem keyLeDesc_trans :
    ∀ (a b c : WinrateResult), keyLeDesc a b → keyLeDesc b c → keyLeDesc a c := by
  intro a b c hab hbc
  simp only [keyLeDesc, decide_eq_true_eq] at hab hbc ⊢
  exact le_trans hbc hab

/-- The descending winrate comparator is total. -/
theorem keyLeDesc_total :
    ∀ (a b : WinrateResult), keyLeDesc a b || keyLeDesc b a := by
  intro a b
  simp only [keyLeDesc, Bool.or_eq_true, decide_eq_true_eq]
  exact le_total _ _

/-- C7: get_all_winrates scores every roster account, retains exactly
the dictionaries meeting the minimum closed-trade count, and returns
them sorted descending by winrate with a stable tie-break: two retained
dictionaries with equal winrates keep their roster relative order.
Stated for min_trades at least 1, where every retained winrate is a
number and the comparison is well defined (see the C10 theorem). -/
theorem C7_ranking_stable_sort :
    ∀ (score : String → WinrateResult) (addresses : List String) (min_trades : ℕ),
      1 ≤ min_trades →
      (∀ r : WinrateResult,
          r ∈ get_all_winrates score addresses min_trades ↔
          r ∈ (addresses.map score).filter
            (fun wr => decide (min_trades ≤ wr.closedTradesGet)))
      ∧ (∀ r ∈ get_all_winrates score addresses min_trades,
          r.winrateGet.isSome = true)
      ∧ (get_all_winrates score addresses min_trades).Pairwise
          (fun x y => y.winrateGet.getD 0 ≤ x.winrateGet.getD 0)
      ∧ (∀ x y : WinrateResult, x.winrateGet = y.winrateGet →
          List.Sublist [x, y] ((addresses.map score).filter
            (fun wr => decide (min_trades ≤ wr.closedTradesGet))) →
          List.Sublist [x, y] (get_all_winrates score addresses min_trades)) := by
  intro score addresses min_trades hmt
  have hga : get_all_winrates score addresses min_trades
      = ((addresses.map score).filter
          (fun wr => decide (min_trades ≤ wr.closedTradesGet))).mergeSort keyLeDesc := rfl
  have hpos : ∀ r ∈ (addresses.map score).filter
      (fun wr => decide (min_trades ≤ wr.closedTradesGet)),
      0 < r.closedTradesGet := by
    intro r hr
    have h2 : min_trades ≤ r.closedTradesGet := by
      simpa using (List.mem_filter.mp hr).2
    omega
  have hmem : ∀ r : WinrateResult,
      r ∈ get_all_winrates score addresses min_trades ↔
      r ∈ (addresses.map score).filter
        (fun wr => decide (min_trades ≤ wr.closedTradesGet)) := by
    intro r
    rw [hga]
    exact List.mem_mergeSort
  refine ⟨hmem, ?_, ?_, ?_⟩
  · intro r hr
    exact (closedTrades_pos_scored (hpos r ((hmem r).mp hr))).1
  · have hsorted : (get_all_winrates score addresses min_trades).Pairwise
        (fun x y => keyLeDesc x y = true) := by
      rw [hga]
      exact List.sorted_mergeSort keyLeDesc_trans keyLeDesc_total _
    refine List.Pairwise.imp_of_mem ?_ hsorted
    intro x y hx hy hxy
    have hx2 := (closedTrades_pos_scored (hpos x ((hmem x).mp hx))).2
    have hy2 := (closedTrades_pos_scored (hpos y ((hmem y).mp hy))).2
    simp only [keyLeDesc, decide_eq_true_eq, hx2, hy2] at hxy
    exact hxy
  · intro x y hxy hsub
    have hx : x ∈ (addresses.map score).filter
        (fun wr => decide (min_trades ≤ wr.closedTradesGet)) :=
      hsub.subset (by simp)
    have hy : y ∈ (addresses.map score).filter
        (fun wr => decide (min_trades ≤ wr.closedTradesGet)) :=
      hsub.subset (by simp)
    have hkey : keyLeDesc x y = true := by
      have hx2 := (closedTrades_pos_scored (hpos x hx)).2
      have hy2 := (closedTrades_pos_scored (hpos y hy)).2
      simp only [keyLeDesc, decide_eq_true_eq, hx2, hy2, hxy, le_refl]
    rw [hga]
    exact List.pair_sublist_mergeSort keyLeDesc_trans keyLeDesc_total hkey hsub

/-- C7 witness: with a one-account roster scoring to a 5-trade
dictionary and min_trades 1, the output is sorted descending. -/
theorem C7_ranking_stable_sort_witness :
    (1 : ℕ) ≤ 1
    ∧ (get_all_winrates (fun _ => sampleScored) ["w"] 1).Pairwise
        (fun x y => y.winrateGet.getD 0 ≤ x.winrateGet.getD 0) :=
  ⟨le_refl 1,
    (C7_ranking_stable_sort (fun _ => sampleScored) ["w"] 1 (le_refl 1)).2.2.1⟩

/-- C10: for min_trades at least 1 every entry of the ranking output
carries a numeric winrate (the no-closed-trades dictionary, whose
winrate is None, can never pass the filter), so the descending sort
never reads a None key; for min_trades 0 the guard fails: a dictionary
whose sort key is the value None reaches the output. -/
theorem C10_min_trades_guard :
    (∀ (score : String → WinrateResult) (addresses : List String) (min_trades : ℕ),
        1 ≤ min_trades →
        ∀ r ∈ get_all_winrates score addresses min_trades,
          r.winrateGet.isSome = true ∧ ¬ r.winrateSortKey = none)
    ∧ get_all_winrates (fun _ => WinrateResult.noClosed "w" true 3) ["w"] 0
        = [WinrateResult.noClosed "w" true 3]
    ∧ (WinrateResult.noClosed "w" true 3).winrateSortKey = none := by
  refine ⟨?_, ?_, rfl⟩
  · intro score addresses min_trades hmt r hr
    have hr2 : r ∈ (addresses.map score).filter
        (fun wr => decide (min_trades ≤ wr.closedTradesGet)) := by
      have hga : get_all_winrates score addresses min_trades
          = ((addresses.map score).filter
              (fun wr => decide (min_trades ≤ wr.closedTradesGet))).mergeSort keyLeDesc := rfl
      rw [hga] at hr
      exact List.mem_mergeSort.mp hr
    have h2 : min_trades ≤ r.closedTradesGet := by
      simpa using (List.mem_filter.mp hr2).2
    have hpos : 0 < r.closedTradesGet := by omega
    obtain ⟨h3, h4⟩ := closedTrades_pos_scored hpos
    refine ⟨h3, ?_⟩
    intro hkey
    rw [h4] at hkey
    rw [hkey] at h3
    simp at h3
  · simp [get_all_winrates, WinrateResult.closedTradesGet]

/-- C10 witness: the guard applied at a concrete one-account roster with
min_trades 1 and a 5-trade scored dictionary. -/
theorem C10_min_trades_guard_witness :
    sampleScored.winrateGet.isSome = true ∧ ¬ sampleScored.winrateSortKey = none :=
  C10_min_trades_guard.1 (fun _ => sampleScored) ["w"] 1 (le_refl 1) sampleScored
    (by simp [get_all_winrates, sampleScored, WinrateResult.closedTradesGet])

/-- The sentiment accumulation loop computes the long bucket, the short
bucket and the count of fetched positions. -/
theorem foldl_sentimentStep :
    ∀ (ps : List (Option Position)) (a b : ℚ) (c : ℕ),
      ps.foldl sentimentStep (a, b, c)
        = (a + longSizesSum ps, b + shortSizesSum ps, c + (ps.filterMap id).length) := by
  intro ps
  induction ps with
  | nil =>
    intro a b c
    simp [longSizesSum, shortSizesSum]
  | cons hd tl ih =>
    intro a b c
    cases hd with
    | none =>
      simp only [List.foldl_cons, sentimentStep]
      rw [ih]
      simp [longSizesSum, shortSizesSum]
    | some p =>
      have h3 : ((some p :: tl).filterMap id).length = (tl.filterMap id).length + 1 := by
        simp
      by_cases hp : 0 < p.size_btc
      · have h1 : longSizesSum (some p :: tl) = |p.size_btc| + longSizesSum tl := by
          simp [longSizesSum, List.filter_cons, hp]
        have h2 : shortSizesSum (some p :: tl) = shortSizesSum tl := by
          simp [shortSizesSum, List.filter_cons, hp]
        simp only [List.foldl_cons, sentimentStep, if_pos hp]
        rw [ih, h1, h2, h3]
        simp only [Prod.mk.injEq]
        refine ⟨by ring, trivial, by omega⟩
      · have h1 : longSizesSum (some p :: tl) = longSizesSum tl := by
          simp [longSizesSum, List.filter_cons, hp]
        have h2 : shortSizesSum (some p :: tl) = |p.size_btc| + shortSizesSum tl := by
          simp [shortSizesSum, List.filter_cons, not_lt.mp hp]
        simp only [List.foldl_cons, sentimentStep, if_neg hp]
        rw [ih, h1, h2, h3]
        simp only [Prod.mk.injEq]
        refine ⟨trivial, by ring, by omega⟩

/-- The label chain of get_current_sentiment, characterized band by
band with exclusive boundaries. -/
theorem sentimentLabel_iff (x : ℚ) :
    ((if 65 < x then "STRONG_LONG" else if 55 < x then "SLIGHTLY_LONG"
        else if x < 35 then "STRONG_SHORT" else if x < 45 then "SLIGHTLY_SHORT"
        else "NEUTRAL") = "STRONG_LONG" ↔ 65 < x)
    ∧ ((if 65 < x then "STRONG_LONG" else if 55 < x then "SLIGHTLY_LONG"
        else if x < 35 then "STRONG_SHORT" else if x < 45 then "SLIGHTLY_SHORT"
        else "NEUTRAL") = "SLIGHTLY_LONG" ↔ 55 < x ∧ x ≤ 65)
    ∧ ((if 65 < x then "STRONG_LONG" else if 55 < x then "SLIGHTLY_LONG"
        else if x < 35 then "STRONG_SHORT" else if x < 45 then "SLIGHTLY_SHORT"
        else "NEUTRAL") = "STRONG_SHORT" ↔ x < 35)
    ∧ ((if 65 < x then "STRONG_LONG" else if 55 < x then "SLIGHTLY_LONG"
        else if x < 35 then "STRONG_SHORT" else if x < 45 then "SLIGHTLY_SHORT"
        else "NEUTRAL") = "SLIGHTLY_SHORT" ↔ 35 ≤ x ∧ x < 45)
    ∧ ((if 65 < x then "STRONG_LONG" else if 55 < x then "SLIGHTLY_LONG"
        else if x < 35 then "STRONG_SHORT" else if x < 45 then "SLIGHTLY_SHORT"
        else "NEUTRAL") = "NEUTRAL" ↔ 45 ≤ x ∧ x ≤ 55) := by
  split_ifs with h1 h2 h3 h4 <;>
    refine ⟨?_, ?_, ?_, ?_, ?_⟩ <;>
    simp_all <;>
    first
      | linarith
      | (intro _; linarith)

/-- C8: the sentiment aggregation sums absolute sizes into long/short
buckets by the sign of the signed size, computes the long ratio as
totalLong/(totalLong+totalShort)*100 with value 50 when both buckets are
zero, and assigns the label by the exclusive threshold chain; with no
positions at all the result is ratio 50 and label NEUTRAL. -/
theorem C8_sentiment_aggregation :
    (∀ ps : List (Option Position),
        (get_current_sentiment ps).whale_count = (ps.filterMap id).length
        ∧ (get_current_sentiment ps).total_long_btc = pyRound 2 (longSizesSum ps)
        ∧ (get_current_sentiment ps).total_short_btc = pyRound 2 (shortSizesSum ps)
        ∧ (get_current_sentiment ps).long_ratio_pct = pyRound 1 (sentRatioOf ps)
        ∧ ((get_current_sentiment ps).sentiment = "STRONG_LONG" ↔ 65 < sentRatioOf ps)
        ∧ ((get_current_sentiment ps).sentiment = "SLIGHTLY_LONG" ↔
            55 < sentRatioOf ps ∧ sentRatioOf ps ≤ 65)
        ∧ ((get_current_sentiment ps).sentiment = "STRONG_SHORT" ↔ sentRatioOf ps < 35)
        ∧ ((get_current_sentiment ps).sentiment = "SLIGHTLY_SHORT" ↔
            35 ≤ sentRatioOf ps ∧ sentRatioOf ps < 45)
        ∧ ((get_current_sentiment ps).sentiment = "NEUTRAL" ↔
            45 ≤ sentRatioOf ps ∧ sentRatioOf ps ≤ 55))
    ∧ get_current_sentiment [] =
        { whale_count := 0, total_long_btc := 0, total_short_btc := 0,
          long_ratio_pct := 50, sentiment := "NEUTRAL" } := by
  have hs : ∀ ps : List (Option Position),
      get_current_sentiment ps =
        { whale_count := (ps.filterMap id).length
          total_long_btc := pyRound 2 (longSizesSum ps)
          total_short_btc := pyRound 2 (shortSizesSum ps)
          long_ratio_pct := pyRound 1 (sentRatioOf ps)
          sentiment :=
            if 65 < sentRatioOf ps then "STRONG_LONG"
            else if 55 < sentRatioOf ps then "SLIGHTLY_LONG"
            else if sentRatioOf ps < 35 then "STRONG_SHORT"
            else if sentRatioOf ps < 45 then "SLIGHTLY_SHORT"
            else "NEUTRAL" } := by
    intro ps
    unfold get_current_sentiment
    rw [foldl_sentimentStep ps 0 0 0]
    simp only [zero_add, Nat.zero_add]
    rfl
  constructor
  · intro ps
    rw [hs ps]
    obtain ⟨i1, i2, i3, i4, i5⟩ := sentimentLabel_iff (sentRatioOf ps)
    exact ⟨rfl, rfl, rfl, rfl, i1, i2, i3, i4, i5⟩
  · norm_num [get_current_sentiment, pyRound, roundHalfEven]

/-- C9 counterexample to the claim as stated: on a fill list whose
closed trades are a single winning BTC trade (gross loss 0), the stored
profit factor is the raw float infinity — the value of float("inf") —
not a tagged unbounded sentinel. -/
theorem C9_raw_infinity_counterexample :
    (get_whale_winrate "w" (some [{ coin := "BTC", closedPnl := 100 }])).profitFactorGet
      = some PyFloat.inf := by
  norm_num [get_whale_winrate, closed_trades_of, btc_fills, List.filter, pyRoundPF,
    WinrateResult.profitFactorGet]

/-- C9 amended: when gross loss is positive the profit factor is
grossProfit/grossLoss (rounded to two decimals); when gross loss is zero
and closed trades exist, the profit factor is the raw Python float
infinity, float("inf"), not a tagged sentinel value. -/
theorem C9_profit_factor :
    ∀ (address : String) (fs : List Fill),
      ¬ closed_trades_of fs = [] →
      (0 < grossLossOf fs →
        (get_whale_winrate address (some fs)).profitFactorGet
          = some (PyFloat.val (pyRound 2 (grossProfitOf fs / grossLossOf fs))))
      ∧ (grossLossOf fs = 0 →
        (get_whale_winrate address (some fs)).profitFactorGet = some PyFloat.inf) := by
  intro address fs hct
  have hfs : ¬ fs = [] := by
    intro h
    subst h
    exact hct rfl
  constructor
  · intro hgl
    rw [grossLossOf] at hgl
    simp [get_whale_winrate, hfs, hct, WinrateResult.profitFactorGet, grossProfitOf,
      grossLossOf, pyRoundPF, hgl]
  · intro hgl
    rw [grossLossOf] at hgl
    simp [get_whale_winrate, hfs, hct, WinrateResult.profitFactorGet, grossProfitOf,
      grossLossOf, pyRoundPF, hgl]

/-- C9 witness: a 100-profit and 50-loss pair of closed BTC trades has
gross loss 50 and profit factor 2.0. -/
theorem C9_profit_factor_witness :
    (get_whale_winrate "w" (some [{ coin := "BTC", closedPnl := 100 },
        { coin := "BTC", closedPnl := -50 }])).profitFactorGet
      = some (PyFloat.val (pyRound 2
          (grossProfitOf [{ coin := "BTC", closedPnl := 100 },
              { coin := "BTC", closedPnl := -50 }]
            / grossLossOf [{ coin := "BTC", closedPnl := 100 },
                { coin := "BTC", closedPnl := -50 }]))) :=
  (C9_profit_factor "w"
      [{ coin := "BTC", closedPnl := 100 }, { coin := "BTC", closedPnl := -50 }]
      (by simp [closed_trades_of, btc_fills])).1
    (by norm_num [grossLossOf, closed_trades_of, btc_fills])

end WhaleTracker
